import Mathlib

/-!
Verification of the calculator-chat message relay server (`server/routes.ts`).

The server keeps one in-process conversation store:
* `messages : StoredMessage[]` — the message list (appended by `POST /api/send`);
* `messageIdCounter` — a global counter used by `generateMessageId`;
* `typingStatus` — per-role `{isTyping, timestamp}` entries;
* `readReceipts : Map<string, boolean>` — the read-receipt index.

We embed this state and every route handler as pure functions.  Wall-clock
time (`Date.now()`) is passed explicitly as a `now : Nat` argument.  Message
text and `localId` strings are modelled as `List Char` (the character list of
the JS string).  The generated message id string `msg_${Date.now()}_${ctr}`
is modelled as the pair `⟨Date.now(), ctr⟩`; the decimal rendering of that
pair into the id string is injective (decimal digits contain no underscore,
so the two components can be parsed back unambiguously), hence the pair is a
faithful model of the id.  The JS `Map` is modelled as an association list
with `Map.set` replace-or-append semantics.
-/

/-! ## Definitions: the store and the route handlers -/

/-- The two participant roles, `"A" | "B"` in the source. -/
inductive Role where
  | A : Role
  | B : Role
deriving DecidableEq

/-- `getPartnerRole` from routes.ts: the other participant. -/
def getPartnerRole (role : Role) : Role :=
  match role with
  | .A => .B
  | .B => .A

/-- A message id, modelling the string `msg_${Date.now()}_${messageIdCounter}`
produced by `generateMessageId` as the pair of its two decimal components. -/
structure MsgId where
  time : Nat
  seq : Nat
deriving DecidableEq

/-- The `StoredMessage` interface from routes.ts. -/
structure StoredMessage where
  id : MsgId
  localId : Option (List Char)
  text : List Char
  sender : Role
  recipient : Role
  timestamp : Nat
  delivered : Bool
  read : Bool
deriving DecidableEq

/-- One entry of the `typingStatus` record. -/
structure TypingEntry where
  isTyping : Bool
  timestamp : Nat
deriving DecidableEq

/-- The whole in-memory store of routes.ts. -/
structure State where
  messages : List StoredMessage
  messageIdCounter : Nat
  typingA : TypingEntry
  typingB : TypingEntry
  readReceipts : List (MsgId × Bool)
deriving DecidableEq

/-- The store at server start: no messages, counter 1, both typing entries
`{isTyping: false, timestamp: 0}`, empty receipt map. -/
def initState : State :=
  { messages := []
    messageIdCounter := 1
    typingA := ⟨false, 0⟩
    typingB := ⟨false, 0⟩
    readReceipts := [] }

/-- `typingStatus[role]` lookup. -/
def typingOf (s : State) (role : Role) : TypingEntry :=
  match role with
  | .A => s.typingA
  | .B => s.typingB

/-- `typingStatus[role] = e` update. -/
def setTypingOf (s : State) (role : Role) (e : TypingEntry) : State :=
  match role with
  | .A => { s with typingA := e }
  | .B => { s with typingB := e }

/-- `readReceipts.get(k)`: first entry with key `k`, if any. -/
def rcptGet (rr : List (MsgId × Bool)) (k : MsgId) : Option Bool :=
  (rr.find? (fun e => decide (e.1 = k))).map (·.2)

/-- `readReceipts.set(k, v)`: replace the entry for `k`, or append one. -/
def rcptSet (rr : List (MsgId × Bool)) (k : MsgId) (v : Bool) : List (MsgId × Bool) :=
  match rr with
  | [] => [(k, v)]
  | e :: rest => if e.1 = k then (k, v) :: rest else e :: rcptSet rest k v

/-- JS `String.prototype.trim`: drop whitespace from both ends. -/
def strTrim (t : List Char) : List Char :=
  (((t.dropWhile Char.isWhitespace).reverse).dropWhile Char.isWhitespace).reverse

/-- `cleanupTypingStatus` from routes.ts: for each role, if the flag is set
and the entry is older than `TYPING_TIMEOUT = 3000` ms, clear it. -/
def cleanupTypingStatus (now : Nat) (s : State) : State :=
  let fix : TypingEntry → TypingEntry := fun e =>
    if e.isTyping && decide (3000 < now - e.timestamp) then { e with isTyping := false } else e
  { s with typingA := fix s.typingA, typingB := fix s.typingB }

/-- Shape of the `POST /api/send` success response body. -/
structure SendResponse where
  id : MsgId
  localId : Option (List Char)
  text : List Char
  sender : Role
  timestamp : Nat
  read : Bool
deriving DecidableEq

/-- Outcome of `POST /api/send`: a 400 rejection with its error message, or
the 201 response body. -/
inductive SendResult where
  | error (msg : List Char) : SendResult
  | ok (resp : SendResponse) : SendResult
deriving DecidableEq

/-- The `localId || null` expression of `POST /api/send`: a supplied empty
string is falsy in JS, so it collapses to `null` like an absent one. -/
def jsLocalId (localId : Option (List Char)) : Option (List Char) :=
  match localId with
  | some l => if l = [] then none else some l
  | none => none

/-- `POST /api/send` handler.  `text` is `none` when the body carries no
usable string (`!text || typeof text !== "string"`); a present empty string
is also caught by the `text.trim().length === 0` test, which `strTrim` covers. -/
def send (sender : Role) (text : Option (List Char)) (localId : Option (List Char))
    (now : Nat) (s : State) : State × SendResult :=
  match text with
  | none => (s, .error "Message text is required".toList)
  | some t =>
    if (strTrim t).length = 0 then
      (s, .error "Message text is required".toList)
    else if 5000 < t.length then
      (s, .error "Message too long (max 5000 characters)".toList)
    else
      let msg : StoredMessage :=
        { id := ⟨now, s.messageIdCounter⟩
          localId := jsLocalId localId
          text := strTrim t
          sender := sender
          recipient := getPartnerRole sender
          timestamp := now
          delivered := false
          read := false }
      ({ s with
          messages := s.messages ++ [msg]
          messageIdCounter := s.messageIdCounter + 1
          readReceipts := rcptSet s.readReceipts msg.id false },
       .ok { id := msg.id, localId := msg.localId, text := msg.text,
             sender := msg.sender, timestamp := msg.timestamp, read := msg.read })

/-- Shape of the message objects returned by poll / list. -/
structure MsgView where
  id : MsgId
  text : List Char
  sender : Role
  timestamp : Nat
  read : Bool
deriving DecidableEq

/-- The projection `{id, text, sender, timestamp, read: readReceipts.get(id) || false}`. -/
def viewOf (rr : List (MsgId × Bool)) (m : StoredMessage) : MsgView :=
  { id := m.id, text := m.text, sender := m.sender, timestamp := m.timestamp,
    read := (rcptGet rr m.id).getD false }

/-- Place `a` in an ascending-by-timestamp list, after every strictly earlier
element and before every element with an equal or later timestamp. -/
def insertByTimestamp (a : MsgView) : List MsgView → List MsgView
  | [] => [a]
  | b :: rest =>
    if b.timestamp < a.timestamp then b :: insertByTimestamp a rest else a :: b :: rest

/-- The `sort((a, b) => a.timestamp - b.timestamp)` step: a stable ascending
sort by timestamp (JS `Array.prototype.sort` is stable), modelled as a
structural insertion sort, which is stable and ascending. -/
def sortByTimestamp : List MsgView → List MsgView
  | [] => []
  | a :: rest => insertByTimestamp a (sortByTimestamp rest)

/-- The delivery marking applied by `GET /api/poll` to each message the
caller receives as recipient. -/
def pollUpd (userRole : Role) (since : Nat) (m : StoredMessage) : StoredMessage :=
  if m.recipient = userRole ∧ since < m.timestamp then { m with delivered := true } else m

/-- `GET /api/poll` handler.  Runs `cleanupTypingStatus`, marks every
recipient-side message newer than `since` as delivered, and returns the
views of the recipient-side and sender-side messages newer than `since`,
sorted ascending by timestamp.  (The source mutates `delivered` while
building the recipient views and filters the same array afterwards for the
sender views; since the view and both filters never look at `delivered`,
computing everything from the delivered-updated list is the same.) -/
def poll (userRole : Role) (since : Nat) (now : Nat) (s : State) : State × List MsgView :=
  let s0 := cleanupTypingStatus now s
  let messages1 := s0.messages.map (pollUpd userRole since)
  let userViews := (messages1.filter (fun m =>
    decide (m.recipient = userRole ∧ since < m.timestamp))).map (viewOf s0.readReceipts)
  let sentViews := (messages1.filter (fun m =>
    decide (m.sender = userRole ∧ since < m.timestamp))).map (viewOf s0.readReceipts)
  ({ s0 with messages := messages1 },
   sortByTimestamp (userViews ++ sentViews))

/-- `GET /api/messages` handler: all messages where the caller is sender or
recipient, projected and sorted ascending by timestamp.  No store mutation. -/
def listMessagesFor (userRole : Role) (s : State) : State × List MsgView :=
  (s,
   sortByTimestamp ((s.messages.filter (fun m =>
      decide (m.sender = userRole ∨ m.recipient = userRole))).map
        (viewOf s.readReceipts)))

/-- `POST /api/typing` handler (the `isTyping` value is a boolean here, so the
`typeof isTyping !== "boolean"` rejection has no counterpart). -/
def setTyping (sender : Role) (isTyping : Bool) (now : Nat) (s : State) : State :=
  setTypingOf s sender ⟨isTyping, now⟩

/-- `GET /api/typing` handler: cleanup, then the partner's flag. -/
def getTyping (userRole : Role) (now : Nat) (s : State) : State × Bool :=
  let s0 := cleanupTypingStatus now s
  (s0, (typingOf s0 (getPartnerRole userRole)).isTyping)

/-- Set `read := true` on the first message with the given id
(`messages.find(...)` returns the first match, which the source mutates). -/
def markFirst (msgs : List StoredMessage) (i : MsgId) : List StoredMessage :=
  match msgs with
  | [] => []
  | m :: rest => if m.id = i then { m with read := true } :: rest else m :: markFirst rest i

/-- One iteration of the `POST /api/read` loop body for a single id. -/
def markReadStep (reader : Role) (acc : State × Nat) (i : MsgId) : State × Nat :=
  match acc.1.messages.find? (fun m => decide (m.id = i)) with
  | none => acc
  | some m =>
    if m.recipient = reader ∧ ¬((rcptGet acc.1.readReceipts i).getD false) then
      ({ acc.1 with
          readReceipts := rcptSet acc.1.readReceipts i true
          messages := markFirst acc.1.messages i },
       acc.2 + 1)
    else acc

/-- `POST /api/read` handler: fold the loop body over the ids, starting from
`updatedCount = 0`; returns the new store and the `updated` count. -/
def markRead (reader : Role) (messageIds : List MsgId) (s : State) : State × Nat :=
  messageIds.foldl (markReadStep reader) (s, 0)

/-- `GET /api/read/:messageId` handler: `readReceipts.get(id) || false`. -/
def getReadStatus (messageId : MsgId) (s : State) : State × Bool :=
  (s, (rcptGet s.readReceipts messageId).getD false)

/-- `DELETE /api/messages` handler: drop every message where the caller is
sender or recipient, then drop every receipt entry whose key is not an id of
a remaining message. -/
def purge (userRole : Role) (s : State) : State :=
  let messages1 := s.messages.filter (fun m =>
    decide (m.sender ≠ userRole ∧ m.recipient ≠ userRole))
  let keep := messages1.map (·.id)
  { s with
      messages := messages1
      readReceipts := s.readReceipts.filter (fun e => decide (e.1 ∈ keep)) }

/-- Set `read := true` on a message exactly when its id is `i`. -/
def readUpd (i : MsgId) (m : StoredMessage) : StoredMessage :=
  if m.id = i then { m with read := true } else m

/-- The loop-body guard of `POST /api/read`, as a predicate on the store: a
message with this id exists, its recipient is the reader, and its receipt
entry is not already true. -/
def eligibleb (s : State) (reader : Role) (i : MsgId) : Bool :=
  match s.messages.find? (fun m => decide (m.id = i)) with
  | none => false
  | some m => decide (m.recipient = reader ∧ ¬((rcptGet s.readReceipts i).getD false))

/-- What C1 asserts about one `markRead` call on a store `s`: the receipt
index is set to true exactly on the batch ids that were eligible (existing
message, recipient is the reader, receipt not already true) — everything else
untouched; the `read` field is set on exactly the messages whose id is an
eligible batch id; the returned count is the number of distinct ids newly
marked; and a second identical call leaves the store unchanged and returns 0. -/
def MarkReadClaim (p : Role) (ids : List MsgId) (s : State) : Prop :=
  (∀ j, rcptGet (markRead p ids s).1.readReceipts j =
      if j ∈ ids ∧ eligibleb s p j = true then some true
      else rcptGet s.readReceipts j)
  ∧ (markRead p ids s).1.messages = s.messages.map (fun m =>
      if m.id ∈ ids ∧ eligibleb s p m.id = true then { m with read := true } else m)
  ∧ (markRead p ids s).2 =
      (ids.toFinset.filter (fun j => eligibleb s p j = true)).card
  ∧ markRead p ids (markRead p ids s).1 = ((markRead p ids s).1, 0)

/-- A tiny store used to instantiate the hypothesis-carrying theorems: the
result of `A` sending "hi" at time 5 to a fresh server. -/
def demoState : State := (send Role.A (some "hi".toList) none 5 initState).1

/-- The id the demo message received. -/
def demoId : MsgId := ⟨5, 1⟩

/-- Every stored message's `read` field agrees with its receipt entry. -/
def ReadAgrees (s : State) : Prop :=
  ∀ m ∈ s.messages, rcptGet s.readReceipts m.id = some m.read

instance (s : State) : Decidable (ReadAgrees s) := by
  unfold ReadAgrees; infer_instance

/-- A 5001-character text whose first character is a space: after trimming it
is exactly 5000 characters long. -/
def cexText : List Char := ' ' :: List.replicate 5000 'a'

/-- What the amended C3 asserts of one `send` call: rejection happens exactly
when the text is missing, empty after trimming, or longer than 5000
characters **before** trimming; and any rejection leaves the store unchanged. -/
def SendValidationClaim (r : Role) (text : Option (List Char))
    (lid : Option (List Char)) (now : Nat) (s : State) : Prop :=
  ((∃ e, (send r text lid now s).2 = SendResult.error e) ↔
    (text = none ∨ ∃ t, text = some t ∧ ((strTrim t).length = 0 ∨ 5000 < t.length)))
  ∧ (∀ e, (send r text lid now s).2 = SendResult.error e → (send r text lid now s).1 = s)

/-- What the amended C9 asserts of one `send` call: the `localId` plays no
part in validation (the call rejects for one value of `lid` exactly when it
rejects for any other value `lid2`); a supplied non-empty `localId` is passed
through unchanged in the response; and the response `localId` is null
exactly when the client supplied none or supplied the empty string, which
`localId || null` collapses to null. -/
def LocalIdClaim (r : Role) (t : Option (List Char)) (lid lid2 : Option (List Char))
    (now : Nat) (s : State) : Prop :=
  ((∃ e, (send r t lid now s).2 = SendResult.error e) ↔
      (∃ e, (send r t lid2 now s).2 = SendResult.error e))
  ∧ (∀ l, lid = some l → l ≠ [] →
      ∀ resp, (send r t lid now s).2 = SendResult.ok resp → resp.localId = some l)
  ∧ (∀ resp, (send r t lid now s).2 = SendResult.ok resp →
      (resp.localId = none ↔ (lid = none ∨ lid = some [])))

/-- The list of views `GET /api/poll` returns, computed from the pre-call
store (the delivery marking does not feed back into the views). -/
def pollViews (p : Role) (t : Nat) (s : State) : List MsgView :=
  sortByTimestamp
    (((s.messages.filter (fun m =>
        decide (m.recipient = p ∧ t < m.timestamp))).map (viewOf s.readReceipts))
      ++ ((s.messages.filter (fun m =>
        decide (m.sender = p ∧ t < m.timestamp))).map (viewOf s.readReceipts)))

/-- The largest timestamp in a poll result (`0` for the empty list), i.e. the
cursor the client would carry forward. -/
def latestTs (l : List MsgView) : Nat := l.foldl (fun a v => max a v.timestamp) 0

/-- What C4 asserts: polling twice with the same cursor and no intervening
sends yields identical results (only `delivered` flags and typing staleness
changed, which the result does not show), and re-polling with the latest
returned timestamp as cursor yields the empty list. -/
def PollClaim (p : Role) (t now1 now2 now3 : Nat) (s : State) : Prop :=
  (poll p t now2 (poll p t now1 s).1).2 = (poll p t now1 s).2
  ∧ (poll p (latestTs (poll p t now1 s).2) now3 (poll p t now1 s).1).2 = []

/-- What the amended C5 asserts: the list taken right after a cursor-0 poll
contains (by content) every element of the poll result — a superset, though
not necessarily strict — and the two agree on the `read` state of shared ids. -/
def ListPollClaim (p : Role) (now : Nat) (s : State) : Prop :=
  (∀ v ∈ (poll p 0 now s).2, v ∈ (listMessagesFor p (poll p 0 now s).1).2)
  ∧ (∀ v ∈ (poll p 0 now s).2, ∀ w ∈ (listMessagesFor p (poll p 0 now s).1).2,
      v.id = w.id → v.read = w.read)

/-- A store with participant `A` marked typing at time 0. -/
def typingDemoState : State := setTyping Role.A true 0 initState

/-- What the amended C10 asserts: List and Get Read Status return the store
exactly as given (no mutation of messages, receipts, or typing); Poll leaves
the receipt index and id counter untouched, changes messages only in their
`delivered` fields, and additionally collapses stale typing flags (each
typing entry is either kept or has only `isTyping` forced to false). -/
def ReadOnlyClaim (p : Role) (k : MsgId) (t now : Nat) (s : State) : Prop :=
  (listMessagesFor p s).1 = s
  ∧ (getReadStatus k s).1 = s
  ∧ (poll p t now s).1.readReceipts = s.readReceipts
  ∧ (poll p t now s).1.messageIdCounter = s.messageIdCounter
  ∧ (poll p t now s).1.messages.map (fun m => { m with delivered := false })
      = s.messages.map (fun m => { m with delivered := false })
  ∧ (∀ r : Role, typingOf (poll p t now s).1 r = typingOf s r
      ∨ typingOf (poll p t now s).1 r = { typingOf s r with isTyping := false })

/-- What C7 asserts of one `purge` call by `p`: every message with `p` as
sender or recipient is removed and every other message kept; a receipt entry
disappears exactly when its key was the id of a removed message (or it never
existed); the subsequent List for `p` is empty; and Get Read Status returns
false for the id of any message of `p`'s conversation, read or not. -/
def PurgeClaim (p : Role) (s : State) : Prop :=
  (∀ m ∈ s.messages, (m.sender = p ∨ m.recipient = p) → m ∉ (purge p s).messages)
  ∧ (∀ m ∈ s.messages, m.sender ≠ p → m.recipient ≠ p → m ∈ (purge p s).messages)
  ∧ (∀ k, rcptGet (purge p s).readReceipts k = none ↔
      (rcptGet s.readReceipts k = none ∨
        ∃ m ∈ s.messages, m.id = k ∧ (m.sender = p ∨ m.recipient = p)))
  ∧ (listMessagesFor p (purge p s)).2 = []
  ∧ (∀ k m, m ∈ s.messages → m.id = k → (m.sender = p ∨ m.recipient = p) →
      (getReadStatus k (purge p s)).2 = false)

/-- One request against the store (with only the store-relevant arguments). -/
inductive Op where
  | opSend (role : Role) (text : Option (List Char)) (localId : Option (List Char)) (now : Nat) : Op
  | opPoll (role : Role) (since now : Nat) : Op
  | opList (role : Role) : Op
  | opSetTyping (role : Role) (b : Bool) (now : Nat) : Op
  | opGetTyping (role : Role) (now : Nat) : Op
  | opMarkRead (role : Role) (ids : List MsgId) : Op
  | opGetReadStatus (i : MsgId) : Op
  | opPurge (role : Role) : Op

/-- The store after serving one request. -/
def applyOp (s : State) : Op → State
  | .opSend r t l now => (send r t l now s).1
  | .opPoll r since now => (poll r since now s).1
  | .opList r => (listMessagesFor r s).1
  | .opSetTyping r b now => setTyping r b now s
  | .opGetTyping r now => (getTyping r now s).1
  | .opMarkRead r ids => (markRead r ids s).1
  | .opGetReadStatus i => (getReadStatus i s).1
  | .opPurge r => purge r s

/-- The id `generateMessageId` hands out while serving one request: one id
for a successful send, none otherwise. -/
def sendIdOf (s : State) : Op → List MsgId
  | .opSend r t l now =>
    match (send r t l now s).2 with
    | .ok resp => [resp.id]
    | .error _ => []
  | _ => []

/-- All ids assigned along a trace of requests, in order. -/
def sentIds (s : State) : List Op → List MsgId
  | [] => []
  | op :: rest => sendIdOf s op ++ sentIds (applyOp s op) rest

/-! ## Theorems -/

/-- Unfold `rcptGet` over a cons cell. -/
theorem rcptGet_cons (e : MsgId × Bool) (rest : List (MsgId × Bool)) (k : MsgId) :
    rcptGet (e :: rest) k = if e.1 = k then some e.2 else rcptGet rest k := by
  by_cases h : e.1 = k <;> simp [rcptGet, List.find?_cons, h]

/-- Looking up after `Map.set`: the written key reads back the new value,
every other key is untouched. -/
theorem rcptGet_rcptSet (rr : List (MsgId × Bool)) (k j : MsgId) (v : Bool) :
    rcptGet (rcptSet rr k v) j = if j = k then some v else rcptGet rr j := by
  induction rr with
  | nil =>
    by_cases h : j = k
    · subst h; simp [rcptSet, rcptGet_cons]
    · rw [if_neg h]
      have hk : ¬((k, v).1 = j) := fun hh => h hh.symm
      simp [rcptSet, rcptGet_cons, hk, rcptGet]
  | cons e rest ih =>
    by_cases hek : e.1 = k
    · rw [rcptSet, if_pos hek]
      by_cases hjk : j = k
      · subst hjk; simp [rcptGet_cons]
      · have h1 : ¬((k, v).1 = j) := fun hh => hjk hh.symm
        have h2 : ¬(e.1 = j) := fun hh => hjk ((hek ▸ hh).symm)
        rw [rcptGet_cons, rcptGet_cons, if_neg h1, if_neg h2, if_neg hjk]
    · rw [rcptSet, if_neg hek]
      by_cases hej : e.1 = j
      · have hjk : ¬(j = k) := fun hh => hek (hej.trans hh)
        rw [rcptGet_cons, rcptGet_cons, if_pos hej, if_pos hej, if_neg hjk]
      · rw [rcptGet_cons, rcptGet_cons, if_neg hej, if_neg hej, ih]

/-- Filtering an association list by a key predicate commutes with lookup. -/
theorem rcptGet_filter_keys (rr : List (MsgId × Bool)) (keep : List MsgId) (k : MsgId) :
    rcptGet (rr.filter (fun e => decide (e.1 ∈ keep))) k =
      if k ∈ keep then rcptGet rr k else none := by
  induction rr with
  | nil => by_cases h : k ∈ keep <;> simp [rcptGet, h]
  | cons e rest ih =>
    rw [List.filter_cons]
    by_cases hmem : e.1 ∈ keep
    · rw [if_pos (by simpa using hmem), rcptGet_cons, rcptGet_cons]
      by_cases hek : e.1 = k
      · rw [if_pos hek, if_pos (hek ▸ hmem), if_pos hek]
      · rw [if_neg hek, if_neg hek, ih]
    · rw [if_neg (by simpa using hmem), ih, rcptGet_cons]
      by_cases hk : k ∈ keep
      · have hek : ¬(e.1 = k) := fun hh => hmem (hh ▸ hk)
        rw [if_pos hk, if_pos hk, if_neg hek]
      · rw [if_neg hk, if_neg hk]

/-- Membership in the timestamp-insertion step. -/
theorem mem_insertByTimestamp (a v : MsgView) (l : List MsgView) :
    v ∈ insertByTimestamp a l ↔ v = a ∨ v ∈ l := by
  induction l with
  | nil => simp [insertByTimestamp]
  | cons b rest ih =>
    by_cases h : b.timestamp < a.timestamp
    · simp only [insertByTimestamp, if_pos h, List.mem_cons, ih]
      tauto
    · simp only [insertByTimestamp, if_neg h, List.mem_cons]

/-- Sorting by timestamp preserves the set of elements. -/
theorem mem_sortByTimestamp (v : MsgView) (l : List MsgView) :
    v ∈ sortByTimestamp l ↔ v ∈ l := by
  induction l with
  | nil => simp [sortByTimestamp]
  | cons a rest ih =>
    simp only [sortByTimestamp, mem_insertByTimestamp, List.mem_cons, ih]

/-- The sort is empty exactly when the input is. -/
theorem sortByTimestamp_eq_nil (l : List MsgView) :
    sortByTimestamp l = [] ↔ l = [] := by
  cases l with
  | nil => simp [sortByTimestamp]
  | cons a rest =>
    simp only [sortByTimestamp]
    constructor
    · intro h
      have ha : a ∈ insertByTimestamp a (sortByTimestamp rest) := by
        rw [mem_insertByTimestamp]; left; rfl
      rw [h] at ha
      exact absurd ha (List.not_mem_nil a)
    · intro h
      exact absurd h (List.cons_ne_nil a rest)

/-- `dropWhile` does nothing on a run of an element the predicate rejects. -/
theorem dropWhile_replicate_of_neg (p : Char → Bool) (a : Char) (h : p a = false) (n : Nat) :
    List.dropWhile p (List.replicate n a) = List.replicate n a := by
  induction n with
  | zero => simp
  | succ m ih => simp [List.replicate_succ, List.dropWhile_cons, h, ih]

theorem readUpd_id (i : MsgId) (m : StoredMessage) : (readUpd i m).id = m.id := by
  by_cases h : m.id = i <;> simp [readUpd, h]

theorem readUpd_recipient (i : MsgId) (m : StoredMessage) :
    (readUpd i m).recipient = m.recipient := by
  by_cases h : m.id = i <;> simp [readUpd, h]

theorem markReadStep_not_elig (reader : Role) (s : State) (c : Nat) (i : MsgId)
    (h : eligibleb s reader i = false) :
    markReadStep reader (s, c) i = (s, c) := by
  unfold eligibleb at h
  unfold markReadStep
  cases hf : s.messages.find? (fun m => decide (m.id = i)) with
  | none => simp [hf]
  | some m =>
    rw [hf] at h
    simp only [decide_eq_false_iff_not] at h
    simp [hf, h]
    tauto

theorem markReadStep_elig (reader : Role) (s : State) (c : Nat) (i : MsgId)
    (h : eligibleb s reader i = true) :
    markReadStep reader (s, c) i =
      ({ s with readReceipts := rcptSet s.readReceipts i true,
                messages := markFirst s.messages i }, c + 1) := by
  unfold eligibleb at h
  unfold markReadStep
  cases hf : s.messages.find? (fun m => decide (m.id = i)) with
  | none => rw [hf] at h; exact absurd h (by simp)
  | some m =>
    rw [hf] at h
    simp only [decide_eq_true_eq] at h
    simp [hf, h]

/-- With duplicate-free message ids, updating the first match is updating
the (unique) match. -/
theorem markFirst_eq_map (msgs : List StoredMessage) (i : MsgId)
    (hnd : (msgs.map (·.id)).Nodup) :
    markFirst msgs i = msgs.map (readUpd i) := by
  induction msgs with
  | nil => rfl
  | cons m rest ih =>
    simp only [List.map_cons, List.nodup_cons] at hnd
    by_cases h : m.id = i
    · rw [markFirst, if_pos h]
      simp only [List.map_cons, readUpd, if_pos h]
      congr 1
      have hall : ∀ x ∈ rest, readUpd i x = x := by
        intro x hx
        have hxi : ¬(x.id = i) := by
          intro he
          exact hnd.1 (by
            have : x.id ∈ rest.map (·.id) := List.mem_map_of_mem (·.id) hx
            rw [he, ← h] at this
            exact this)
        simp [readUpd, hxi]
      calc rest = rest.map id := (List.map_id rest).symm
        _ = rest.map (readUpd i) := (List.map_congr_left (fun x hx => (hall x hx).symm))
    · rw [markFirst, if_neg h]
      simp only [List.map_cons]
      rw [ih hnd.2]
      congr 1
      simp [readUpd, h]

/-- Mapping the read-update commutes with the id search. -/
theorem find?_map_readUpd (msgs : List StoredMessage) (i j : MsgId) :
    (msgs.map (readUpd i)).find? (fun m => decide (m.id = j)) =
      (msgs.find? (fun m => decide (m.id = j))).map (readUpd i) := by
  induction msgs with
  | nil => rfl
  | cons m rest ih =>
    by_cases h : m.id = j
    · simp [List.find?_cons, readUpd_id, h]
    · simp [List.find?_cons, readUpd_id, h, ih]

theorem map_id_readUpd (msgs : List StoredMessage) (i : MsgId) :
    (msgs.map (readUpd i)).map (·.id) = msgs.map (·.id) := by
  rw [List.map_map]
  exact List.map_congr_left (fun m _ => readUpd_id i m)

/-- Effect of one successful mark on the eligibility of every id. -/
theorem eligibleb_after_mark (s : State) (reader : Role) (i j : MsgId)
    (hnd : (s.messages.map (·.id)).Nodup) :
    eligibleb { s with readReceipts := rcptSet s.readReceipts i true,
                       messages := markFirst s.messages i } reader j =
      (eligibleb s reader j && !(decide (j = i))) := by
  rw [markFirst_eq_map _ _ hnd]
  unfold eligibleb
  simp only [find?_map_readUpd]
  cases hf : s.messages.find? (fun m => decide (m.id = j)) with
  | none => simp
  | some m =>
    simp only [Option.map_some']
    rw [rcptGet_rcptSet]
    by_cases hj : j = i
    · subst hj
      simp [readUpd_recipient]
    · rw [if_neg hj]
      simp [readUpd_recipient, hj]

theorem eligibleb_after_mark_iff (s : State) (reader : Role) (i j : MsgId)
    (hnd : (s.messages.map (·.id)).Nodup) :
    eligibleb { s with readReceipts := rcptSet s.readReceipts i true,
                       messages := markFirst s.messages i } reader j = true ↔
      (eligibleb s reader j = true ∧ j ≠ i) := by
  rw [eligibleb_after_mark s reader i j hnd]
  simp

theorem card_insert_eq_erase_add_one {α : Type} [DecidableEq α] (X : Finset α) (a : α) :
    (insert a X).card = (X.erase a).card + 1 := by
  by_cases h : a ∈ X
  · rw [Finset.insert_eq_self.mpr h, Finset.card_erase_of_mem h]
    have hpos : 0 < X.card := Finset.card_pos.mpr ⟨a, h⟩
    omega
  · rw [Finset.card_insert_of_not_mem h, Finset.erase_eq_of_not_mem h]

/-- Full characterization of the `POST /api/read` fold: the receipt index
after the loop, the message list after the loop, the returned count, and the
untouched fields, all in terms of the initial store. -/
theorem markRead_foldl_spec (reader : Role) (ids : List MsgId) (s : State) (c : Nat)
    (hnd : (s.messages.map (·.id)).Nodup) :
    (∀ j, rcptGet (ids.foldl (markReadStep reader) (s, c)).1.readReceipts j =
        if j ∈ ids ∧ eligibleb s reader j = true then some true
        else rcptGet s.readReceipts j)
    ∧ (ids.foldl (markReadStep reader) (s, c)).1.messages =
        s.messages.map (fun m =>
          if m.id ∈ ids ∧ eligibleb s reader m.id = true then { m with read := true } else m)
    ∧ (ids.foldl (markReadStep reader) (s, c)).2 =
        c + (ids.toFinset.filter (fun j => eligibleb s reader j = true)).card
    ∧ (ids.foldl (markReadStep reader) (s, c)).1.messageIdCounter = s.messageIdCounter
    ∧ (ids.foldl (markReadStep reader) (s, c)).1.typingA = s.typingA
    ∧ (ids.foldl (markReadStep reader) (s, c)).1.typingB = s.typingB := by
  induction ids generalizing s c with
  | nil =>
    refine ⟨fun j => by simp, ?_, by simp, rfl, rfl, rfl⟩
    simp only [List.foldl_nil]
    calc s.messages = s.messages.map id := (List.map_id s.messages).symm
      _ = _ := List.map_congr_left (fun m _ => by simp)
  | cons i rest ih =>
    rw [List.foldl_cons]
    cases he : eligibleb s reader i with
    | false =>
      rw [markReadStep_not_elig reader s c i he]
      obtain ⟨ih1, ih2, ih3, ih4, ih5, ih6⟩ := ih s c hnd
      refine ⟨?_, ?_, ?_, ih4, ih5, ih6⟩
      · intro j
        rw [ih1 j]
        by_cases hj : j = i
        · subst hj
          simp [List.mem_cons, he]
        · simp [List.mem_cons, hj]
      · rw [ih2]
        refine List.map_congr_left (fun m _ => ?_)
        by_cases hm : m.id = i
        · rw [hm]; simp [List.mem_cons, he]
        · simp [List.mem_cons, hm]
      · rw [ih3]
        congr 1
        rw [List.toFinset_cons, Finset.filter_insert, if_neg (by simp [he])]
    | true =>
      rw [markReadStep_elig reader s c i he]
      set s1 : State :=
        { s with readReceipts := rcptSet s.readReceipts i true,
                 messages := markFirst s.messages i } with hs1
      have hmsg1 : s1.messages = s.messages.map (readUpd i) := by
        rw [hs1]; exact markFirst_eq_map s.messages i hnd
      have hnd1 : (s1.messages.map (·.id)).Nodup := by
        rw [hmsg1, map_id_readUpd]; exact hnd
      have helig : ∀ j, eligibleb s1 reader j = true ↔
          (eligibleb s reader j = true ∧ j ≠ i) :=
        fun j => eligibleb_after_mark_iff s reader i j hnd
      obtain ⟨ih1, ih2, ih3, ih4, ih5, ih6⟩ := ih s1 (c + 1) hnd1
      have hrr1 : ∀ j, rcptGet s1.readReceipts j =
          if j = i then some true else rcptGet s.readReceipts j := by
        intro j; rw [hs1]; exact rcptGet_rcptSet s.readReceipts i j true
      refine ⟨?_, ?_, ?_, ih4, ih5, ih6⟩
      · intro j
        rw [ih1 j, hrr1 j]
        by_cases hj : j = i
        · subst hj
          rw [if_neg (fun hcon => ((helig j).mp hcon.2).2 rfl), if_pos rfl,
            if_pos ⟨List.mem_cons_self j rest, he⟩]
        · by_cases hrest : j ∈ rest ∧ eligibleb s reader j = true
          · rw [if_pos ⟨hrest.1, (helig j).mpr ⟨hrest.2, hj⟩⟩,
              if_pos ⟨List.mem_cons_of_mem i hrest.1, hrest.2⟩]
          · rw [if_neg (fun hcon => hrest ⟨hcon.1, ((helig j).mp hcon.2).1⟩), if_neg hj,
              if_neg (by
                intro hcon
                rcases hcon with ⟨hmem, helig2⟩
                rcases List.mem_cons.mp hmem with h1 | h1
                · exact hj h1
                · exact hrest ⟨h1, helig2⟩)]
      · rw [ih2, hmsg1, List.map_map]
        refine List.map_congr_left (fun m _ => ?_)
        simp only [Function.comp_apply]
        by_cases hm : m.id = i
        · have h1 : readUpd i m = { m with read := true } := by simp [readUpd, hm]
          rw [h1]
          have h2 : ¬(({ m with read := true } : StoredMessage).id ∈ rest ∧
              eligibleb s1 reader ({ m with read := true } : StoredMessage).id = true) := by
            intro hcon
            have : StoredMessage.id { m with read := true } = m.id := rfl
            rw [this, hm] at hcon
            exact ((helig i).mp hcon.2).2 rfl
          rw [if_neg h2, if_pos ⟨by rw [hm]; exact List.mem_cons_self i rest, hm ▸ he⟩]
        · have h1 : readUpd i m = m := by simp [readUpd, hm]
          rw [h1]
          by_cases hc2 : m.id ∈ rest ∧ eligibleb s reader m.id = true
          · rw [if_pos ⟨hc2.1, (helig m.id).mpr ⟨hc2.2, hm⟩⟩,
              if_pos ⟨List.mem_cons_of_mem i hc2.1, hc2.2⟩]
          · rw [if_neg (by
                intro hcon
                exact hc2 ⟨hcon.1, ((helig m.id).mp hcon.2).1⟩),
              if_neg (by
                intro hcon
                rcases List.mem_cons.mp hcon.1 with h1 | h1
                · exact hm h1
                · exact hc2 ⟨h1, hcon.2⟩)]
      · rw [ih3]
        have hfilter : rest.toFinset.filter (fun j => eligibleb s1 reader j = true) =
            (rest.toFinset.filter (fun j => eligibleb s reader j = true)).erase i := by
          ext j
          simp only [Finset.mem_filter, Finset.mem_erase, helig j]
          tauto
        rw [hfilter, List.toFinset_cons, Finset.filter_insert, if_pos he,
          card_insert_eq_erase_add_one]
        omega

/-- `find?` by id commutes with any id-preserving map. -/
theorem find?_id_map (f : StoredMessage → StoredMessage) (hf : ∀ m, (f m).id = m.id)
    (msgs : List StoredMessage) (j : MsgId) :
    (msgs.map f).find? (fun m => decide (m.id = j)) =
      (msgs.find? (fun m => decide (m.id = j))).map f := by
  induction msgs with
  | nil => rfl
  | cons m rest ih =>
    by_cases h : m.id = j
    · simp [List.find?_cons, hf, h]
    · simp [List.find?_cons, hf, h, ih]

/-- When no id in the batch is eligible, the read-receipt loop does nothing. -/
theorem markRead_foldl_noop (reader : Role) (ids : List MsgId) (s : State) (c : Nat)
    (h : ∀ j ∈ ids, eligibleb s reader j = false) :
    ids.foldl (markReadStep reader) (s, c) = (s, c) := by
  induction ids with
  | nil => rfl
  | cons i rest ih =>
    rw [List.foldl_cons, markReadStep_not_elig reader s c i (h i (List.mem_cons_self i rest))]
    exact ih (fun j hj => h j (List.mem_cons_of_mem i hj))

/-- After the loop, every id of the batch has become ineligible. -/
theorem eligibleb_markRead_final (reader : Role) (ids : List MsgId) (s : State)
    (hnd : (s.messages.map (·.id)).Nodup) (j : MsgId) (hj : j ∈ ids) :
    eligibleb (markRead reader ids s).1 reader j = false := by
  obtain ⟨h1, h2, _, _, _, _⟩ := markRead_foldl_spec reader ids s 0 hnd
  set f : StoredMessage → StoredMessage := fun m =>
    if m.id ∈ ids ∧ eligibleb s reader m.id = true then { m with read := true } else m with hfdef
  have hfid : ∀ m, (f m).id = m.id := by
    intro m
    by_cases h : m.id ∈ ids ∧ eligibleb s reader m.id = true <;> simp [hfdef, h]
  have hfrec : ∀ m, (f m).recipient = m.recipient := by
    intro m
    by_cases h : m.id ∈ ids ∧ eligibleb s reader m.id = true <;> simp [hfdef, h]
  unfold markRead eligibleb
  rw [show (ids.foldl (markReadStep reader) (s, 0)).1.messages = s.messages.map f from h2,
    find?_id_map f hfid]
  cases hf : s.messages.find? (fun m => decide (m.id = j)) with
  | none => simp
  | some m =>
    simp only [Option.map_some']
    rw [h1 j]
    cases he : eligibleb s reader j with
    | true => simp [hj, he]
    | false =>
      rw [if_neg (by simp [he])]
      unfold eligibleb at he
      rw [hf] at he
      simp only [decide_eq_false_iff_not] at he
      simp only [hfrec, decide_eq_false_iff_not]
      exact he

/-- **C1**: for every store with duplicate-free message ids and every batch of
ids sent to `POST /api/read` by participant `p`, exactly those ids are newly
marked (in both the receipt index and the message's `read` field) that name an
existing message whose recipient is `p` and whose receipt entry is not already
true; all others are skipped without error, the returned `updated` count is
the number of distinct ids newly marked, and a second identical call changes
nothing and contributes 0. -/
theorem C1_markRead_correct (p : Role) (ids : List MsgId) (s : State)
    (hnd : (s.messages.map (·.id)).Nodup) : MarkReadClaim p ids s := by
  obtain ⟨h1, h2, h3, _, _, _⟩ := markRead_foldl_spec p ids s 0 hnd
  refine ⟨h1, h2, by unfold markRead; rw [h3]; omega, ?_⟩
  have hall : ∀ j ∈ ids, eligibleb (markRead p ids s).1 p j = false :=
    fun j hj => eligibleb_markRead_final p ids s hnd j hj
  exact markRead_foldl_noop p ids (markRead p ids s).1 0 hall

theorem C1_markRead_correct_witness :
    ((demoState.messages.map (·.id)).Nodup ∧ MarkReadClaim Role.B [demoId] demoState) :=
  ⟨by decide, C1_markRead_correct Role.B [demoId] demoState (by decide)⟩

theorem purge_messages (r : Role) (s : State) :
    (purge r s).messages =
      s.messages.filter (fun m => decide (m.sender ≠ r ∧ m.recipient ≠ r)) := rfl

theorem purge_receipts (r : Role) (s : State) :
    (purge r s).readReceipts =
      s.readReceipts.filter (fun e => decide (e.1 ∈
        (s.messages.filter (fun m => decide (m.sender ≠ r ∧ m.recipient ≠ r))).map (·.id))) := rfl

/-- **C2**: if every message's `read` field agrees with its receipt entry (as
is the case in every reachable store) and message ids are duplicate-free,
the agreement still holds immediately after any `markRead` call and
immediately after any `purge` call. -/
theorem C2_read_receipt_agreement (p q : Role) (ids : List MsgId) (s : State)
    (hnd : (s.messages.map (·.id)).Nodup) (h : ReadAgrees s) :
    ReadAgrees (markRead p ids s).1 ∧ ReadAgrees (purge q s) := by
  constructor
  · obtain ⟨h1, h2, _, _, _, _⟩ := markRead_foldl_spec p ids s 0 hnd
    intro m' hm'
    rw [show (markRead p ids s).1.messages = _ from h2] at hm'
    obtain ⟨m, hm, rfl⟩ := List.mem_map.mp hm'
    by_cases hc : m.id ∈ ids ∧ eligibleb s p m.id = true
    · rw [if_pos hc]
      have : rcptGet (markRead p ids s).1.readReceipts m.id = some true := by
        rw [show rcptGet (markRead p ids s).1.readReceipts m.id = _ from h1 m.id, if_pos hc]
      exact this
    · rw [if_neg hc]
      rw [show rcptGet (markRead p ids s).1.readReceipts m.id = _ from h1 m.id, if_neg hc]
      exact h m hm
  · intro m hm
    rw [purge_messages] at hm
    have hmem := List.mem_filter.mp hm
    rw [purge_receipts, rcptGet_filter_keys, if_pos (List.mem_map_of_mem (·.id) hm)]
    exact h m hmem.1

theorem C2_read_receipt_agreement_witness :
    (demoState.messages.map (·.id)).Nodup ∧ ReadAgrees demoState ∧
      (ReadAgrees (markRead Role.B [demoId] demoState).1 ∧ ReadAgrees (purge Role.A demoState)) :=
  ⟨by decide, by decide,
    C2_read_receipt_agreement Role.B Role.A [demoId] demoState (by decide) (by decide)⟩

/-- Unfolding `send` on a present text: the two validation branches, then
the stored message and the 201 response. -/
theorem send_some (r : Role) (t : List Char) (lid : Option (List Char)) (now : Nat)
    (s : State) :
    send r (some t) lid now s =
      if (strTrim t).length = 0 then (s, .error "Message text is required".toList)
      else if 5000 < t.length then
        (s, .error "Message too long (max 5000 characters)".toList)
      else
        ({ s with
            messages := s.messages ++
              [{ id := ⟨now, s.messageIdCounter⟩
                 localId := jsLocalId lid
                 text := strTrim t
                 sender := r
                 recipient := getPartnerRole r
                 timestamp := now
                 delivered := false
                 read := false }]
            messageIdCounter := s.messageIdCounter + 1
            readReceipts := rcptSet s.readReceipts ⟨now, s.messageIdCounter⟩ false },
         .ok { id := ⟨now, s.messageIdCounter⟩
               localId := jsLocalId lid
               text := strTrim t
               sender := r
               timestamp := now
               read := false }) := rfl

theorem strTrim_cexText : strTrim cexText = List.replicate 5000 'a' := by
  have h2 : 'a'.isWhitespace = false := by decide
  unfold cexText strTrim
  rw [List.dropWhile_cons, if_pos (by decide), dropWhile_replicate_of_neg _ _ h2,
    List.reverse_replicate, dropWhile_replicate_of_neg _ _ h2, List.reverse_replicate]

/-- **C3 counterexample**: the claim says the 5000-character maximum is
validated against the *trimmed* text.  `cexText` trims to exactly 5000
characters (and is non-empty after trimming), so under the claim it must be
accepted — but the code checks the raw length (5001) and rejects it. -/
theorem C3_counterexample :
    (strTrim cexText).length = 5000 ∧ cexText.length = 5001 ∧
      (send Role.A (some cexText) none 7 initState).2 =
        SendResult.error "Message too long (max 5000 characters)".toList := by
  have hlen : cexText.length = 5001 := by
    unfold cexText
    rw [List.length_cons, List.length_replicate]
  refine ⟨by rw [strTrim_cexText, List.length_replicate], hlen, ?_⟩
  rw [send_some]
  rw [if_neg (by rw [strTrim_cexText, List.length_replicate]; omega),
    if_pos (by rw [hlen]; omega)]

/-- **C3 (amended)**: send rejects with a validation error exactly when the
supplied text is missing, empty after trimming, or exceeds 5000 characters
in raw (untrimmed) length; on any such rejection the store is left
completely unchanged (in particular a 5001-character text stores nothing). -/
theorem C3_send_validation (r : Role) (text : Option (List Char))
    (lid : Option (List Char)) (now : Nat) (s : State) :
    SendValidationClaim r text lid now s := by
  unfold SendValidationClaim
  cases text with
  | none =>
    exact ⟨⟨fun _ => Or.inl rfl, fun _ => ⟨_, rfl⟩⟩, fun e _ => rfl⟩
  | some t =>
    rw [send_some]
    by_cases h0 : (strTrim t).length = 0
    · rw [if_pos h0]
      exact ⟨⟨fun _ => Or.inr ⟨t, rfl, Or.inl h0⟩, fun _ => ⟨_, rfl⟩⟩, fun e _ => rfl⟩
    · rw [if_neg h0]
      by_cases h5 : 5000 < t.length
      · rw [if_pos h5]
        exact ⟨⟨fun _ => Or.inr ⟨t, rfl, Or.inr h5⟩, fun _ => ⟨_, rfl⟩⟩, fun e _ => rfl⟩
      · rw [if_neg h5]
        constructor
        · constructor
          · rintro ⟨e, he⟩
            exact absurd he (by simp)
          · rintro (hn | ⟨t', ht', hcond⟩)
            · exact absurd hn (by simp)
            · have ht : t = t' := by injection ht'
              subst ht
              rcases hcond with hc | hc
              · exact absurd hc h0
              · exact absurd hc h5
        · intro e he
          exact absurd he (by simp)

theorem C3_send_validation_witness :
    SendValidationClaim Role.A (some "hi".toList) none 5 initState :=
  C3_send_validation Role.A (some "hi".toList) none 5 initState

/-- `send` with no text: unfolding. -/
theorem send_none (r : Role) (lid : Option (List Char)) (now : Nat) (s : State) :
    send r none lid now s = (s, .error "Message text is required".toList) := rfl

/-- `send` rejects exactly when the text is missing, trims to empty, or has
raw length over 5000 — independent of everything else. -/
theorem send_error_iff (r : Role) (text lid : Option (List Char)) (now : Nat) (s : State) :
    (∃ e, (send r text lid now s).2 = SendResult.error e) ↔
      (text = none ∨ ∃ t, text = some t ∧ ((strTrim t).length = 0 ∨ 5000 < t.length)) := by
  cases text with
  | none => exact ⟨fun _ => Or.inl rfl, fun _ => ⟨_, rfl⟩⟩
  | some t =>
    rw [send_some]
    by_cases h0 : (strTrim t).length = 0
    · rw [if_pos h0]
      exact ⟨fun _ => Or.inr ⟨t, rfl, Or.inl h0⟩, fun _ => ⟨_, rfl⟩⟩
    · rw [if_neg h0]
      by_cases h5 : 5000 < t.length
      · rw [if_pos h5]
        exact ⟨fun _ => Or.inr ⟨t, rfl, Or.inr h5⟩, fun _ => ⟨_, rfl⟩⟩
      · rw [if_neg h5]
        constructor
        · rintro ⟨e, he⟩
          exact absurd he (by simp)
        · rintro (hn | ⟨t', ht', hcond⟩)
          · exact absurd hn (by simp)
          · have ht : t = t' := by injection ht'
            subst ht
            rcases hcond with hc | hc
            · exact absurd hc h0
            · exact absurd hc h5

/-- A rejected `send` leaves the store untouched. -/
theorem send_error_state (r : Role) (text lid : Option (List Char)) (now : Nat) (s : State)
    (e : List Char) (h : (send r text lid now s).2 = SendResult.error e) :
    (send r text lid now s).1 = s := by
  cases text with
  | none => rfl
  | some t =>
    rw [send_some] at h ⊢
    by_cases h0 : (strTrim t).length = 0
    · rw [if_pos h0]
    · rw [if_neg h0] at h ⊢
      by_cases h5 : 5000 < t.length
      · rw [if_pos h5]
      · rw [if_neg h5] at h
        exact absurd h (by simp)

/-- A successful `send` returns exactly the stored message's projection. -/
theorem send_ok_resp (r : Role) (t : List Char) (lid : Option (List Char)) (now : Nat)
    (s : State) (resp : SendResponse)
    (h : (send r (some t) lid now s).2 = SendResult.ok resp) :
    resp = { id := ⟨now, s.messageIdCounter⟩, localId := jsLocalId lid,
             text := strTrim t, sender := r, timestamp := now, read := false } := by
  rw [send_some] at h
  by_cases h0 : (strTrim t).length = 0
  · rw [if_pos h0] at h
    exact absurd h (by simp)
  · rw [if_neg h0] at h
    by_cases h5 : 5000 < t.length
    · rw [if_pos h5] at h
      exact absurd h (by simp)
    · rw [if_neg h5] at h
      injection h with h'
      exact h'.symm

/-- **C9 counterexample**: the client supplies a (non-null) `localId`, the
empty string, yet the response carries `localId: null` — because the source
computes `localId || null` and the empty string is falsy in JS.  So "equals
null in the response only when the client supplied none" fails. -/
theorem C9_counterexample :
    (send Role.A (some "hi".toList) (some []) 5 initState).2 =
      SendResult.ok { id := ⟨5, 1⟩, localId := none, text := "hi".toList,
                      sender := Role.A, timestamp := 5, read := false } := by decide

/-- **C9 (amended)**: for every send, `localId` is never validated; a
non-empty supplied `localId` is passed through unchanged in the response; and
the response `localId` is null exactly when the client supplied none or
supplied the falsy empty string. -/
theorem C9_localId_passthrough (r : Role) (t : Option (List Char))
    (lid lid2 : Option (List Char)) (now : Nat) (s : State) :
    LocalIdClaim r t lid lid2 now s := by
  refine ⟨(send_error_iff r t lid now s).trans (send_error_iff r t lid2 now s).symm, ?_, ?_⟩
  · intro l hl hne resp h
    cases t with
    | none => exact absurd h (by rw [send_none]; simp)
    | some t' =>
      rw [send_ok_resp r t' lid now s resp h]
      subst hl
      simp [jsLocalId, hne]
  · intro resp h
    cases t with
    | none => exact absurd h (by rw [send_none]; simp)
    | some t' =>
      rw [send_ok_resp r t' lid now s resp h]
      show jsLocalId lid = none ↔ (lid = none ∨ lid = some [])
      cases lid with
      | none => simp [jsLocalId]
      | some l =>
        by_cases hl : l = []
        · subst hl
          simp [jsLocalId]
        · simp [jsLocalId, hl]

theorem C9_localId_passthrough_witness :
    LocalIdClaim Role.A (some "hi".toList) (some "x".toList) none 5 initState :=
  C9_localId_passthrough Role.A (some "hi".toList) (some "x".toList) none 5 initState

/-- **C6**: `GET /api/typing` returns the partner's flag, not the caller's,
with staleness collapsed at read time: after the partner sets `isTyping` to
true at time `tset`, a read at time `now` yields true exactly when at most
3000 ms have elapsed — no explicit clear is ever needed for it to read false
after more than 3000 ms.  The second conjunct shows any typing update made
by the caller itself in between does not affect the result, which reflects
only the partner's entry. -/
theorem C6_typing_staleness (caller : Role) (tset tc now : Nat) (b : Bool) (s : State) :
    (getTyping caller now (setTyping (getPartnerRole caller) true tset s)).2
      = decide (now - tset ≤ 3000)
    ∧ (getTyping caller now
        (setTyping caller b tc (setTyping (getPartnerRole caller) true tset s))).2
      = decide (now - tset ≤ 3000) := by
  by_cases h : 3000 < now - tset
  · have h2 : ¬(now - tset ≤ 3000) := Nat.not_le.mpr h
    cases caller <;>
      exact ⟨by simp [getTyping, setTyping, setTypingOf, cleanupTypingStatus, typingOf,
          getPartnerRole, h, h2],
        by simp [getTyping, setTyping, setTypingOf, cleanupTypingStatus, typingOf,
          getPartnerRole, h, h2]⟩
  · have h2 : now - tset ≤ 3000 := Nat.not_lt.mp h
    cases caller <;>
      exact ⟨by simp [getTyping, setTyping, setTypingOf, cleanupTypingStatus, typingOf,
          getPartnerRole, h, h2],
        by simp [getTyping, setTyping, setTypingOf, cleanupTypingStatus, typingOf,
          getPartnerRole, h, h2]⟩

theorem pollUpd_id (p : Role) (t : Nat) (m : StoredMessage) : (pollUpd p t m).id = m.id := by
  by_cases h : m.recipient = p ∧ t < m.timestamp <;> simp [pollUpd, h]

theorem pollUpd_recipient (p : Role) (t : Nat) (m : StoredMessage) :
    (pollUpd p t m).recipient = m.recipient := by
  by_cases h : m.recipient = p ∧ t < m.timestamp <;> simp [pollUpd, h]

theorem pollUpd_sender (p : Role) (t : Nat) (m : StoredMessage) :
    (pollUpd p t m).sender = m.sender := by
  by_cases h : m.recipient = p ∧ t < m.timestamp <;> simp [pollUpd, h]

theorem pollUpd_timestamp (p : Role) (t : Nat) (m : StoredMessage) :
    (pollUpd p t m).timestamp = m.timestamp := by
  by_cases h : m.recipient = p ∧ t < m.timestamp <;> simp [pollUpd, h]

theorem pollUpd_text (p : Role) (t : Nat) (m : StoredMessage) :
    (pollUpd p t m).text = m.text := by
  by_cases h : m.recipient = p ∧ t < m.timestamp <;> simp [pollUpd, h]

/-- The poll/list projection is blind to the delivery marking. -/
theorem viewOf_pollUpd (rr : List (MsgId × Bool)) (p : Role) (t : Nat) (m : StoredMessage) :
    viewOf rr (pollUpd p t m) = viewOf rr m := by
  unfold viewOf
  rw [pollUpd_id, pollUpd_sender, pollUpd_timestamp, pollUpd_text]

/-- Filtering by a predicate invariant under `f` commutes with mapping `f`. -/
theorem filter_map_comm (f : StoredMessage → StoredMessage) (pred : StoredMessage → Bool)
    (hpred : ∀ m, pred (f m) = pred m) (msgs : List StoredMessage) :
    (msgs.map f).filter pred = (msgs.filter pred).map f := by
  induction msgs with
  | nil => rfl
  | cons m rest ih =>
    rw [List.map_cons, List.filter_cons, List.filter_cons, hpred]
    cases h : pred m with
    | true => rw [if_pos rfl, if_pos rfl, List.map_cons, ih]
    | false => rw [if_neg Bool.false_ne_true, if_neg Bool.false_ne_true]; exact ih

theorem poll_snd (p : Role) (t now : Nat) (s : State) :
    (poll p t now s).2 = pollViews p t s := by
  unfold poll pollViews
  have h1 : ∀ m, (decide ((pollUpd p t m).recipient = p ∧ t < (pollUpd p t m).timestamp))
      = decide (m.recipient = p ∧ t < m.timestamp) := by
    intro m; rw [pollUpd_recipient, pollUpd_timestamp]
  have h2 : ∀ m, (decide ((pollUpd p t m).sender = p ∧ t < (pollUpd p t m).timestamp))
      = decide (m.sender = p ∧ t < m.timestamp) := by
    intro m; rw [pollUpd_sender, pollUpd_timestamp]
  simp only [cleanupTypingStatus]
  rw [filter_map_comm (pollUpd p t) _ h1, filter_map_comm (pollUpd p t) _ h2,
    List.map_map, List.map_map]
  congr 2 <;> exact List.map_congr_left (fun m _ => by
    simp only [Function.comp_apply]; exact viewOf_pollUpd s.readReceipts p t m)

theorem poll_fst_messages (p : Role) (t now : Nat) (s : State) :
    (poll p t now s).1.messages = s.messages.map (pollUpd p t) := rfl

theorem poll_fst_receipts (p : Role) (t now : Nat) (s : State) :
    (poll p t now s).1.readReceipts = s.readReceipts := rfl

theorem poll_fst_counter (p : Role) (t now : Nat) (s : State) :
    (poll p t now s).1.messageIdCounter = s.messageIdCounter := rfl

/-- Poll views only depend on the store through the delivery-stripped
messages and the receipts. -/
theorem pollViews_eq_of (p : Role) (t : Nat) (s1 s : State)
    (hm : s1.messages = s.messages.map (pollUpd p t))
    (hr : s1.readReceipts = s.readReceipts) :
    pollViews p t s1 = pollViews p t s := by
  unfold pollViews
  rw [hm, hr]
  have h1 : ∀ m, (decide ((pollUpd p t m).recipient = p ∧ t < (pollUpd p t m).timestamp))
      = decide (m.recipient = p ∧ t < m.timestamp) := by
    intro m; rw [pollUpd_recipient, pollUpd_timestamp]
  have h2 : ∀ m, (decide ((pollUpd p t m).sender = p ∧ t < (pollUpd p t m).timestamp))
      = decide (m.sender = p ∧ t < m.timestamp) := by
    intro m; rw [pollUpd_sender, pollUpd_timestamp]
  rw [filter_map_comm (pollUpd p t) _ h1, filter_map_comm (pollUpd p t) _ h2,
    List.map_map, List.map_map]
  congr 2 <;> exact List.map_congr_left (fun m _ => by
    simp only [Function.comp_apply]; exact viewOf_pollUpd s.readReceipts p t m)

/-- Membership characterization of the poll result. -/
theorem mem_pollViews_iff (p : Role) (t : Nat) (s : State) (v : MsgView) :
    v ∈ pollViews p t s ↔ ∃ m ∈ s.messages,
      ((m.recipient = p ∧ t < m.timestamp) ∨ (m.sender = p ∧ t < m.timestamp))
      ∧ v = viewOf s.readReceipts m := by
  unfold pollViews
  rw [mem_sortByTimestamp, List.mem_append]
  constructor
  · rintro (hv | hv) <;>
    · obtain ⟨m, hm, rfl⟩ := List.mem_map.mp hv
      have := List.mem_filter.mp hm
      refine ⟨m, this.1, ?_, rfl⟩
      first
        | exact Or.inl (by simpa using this.2)
        | exact Or.inr (by simpa using this.2)
  · rintro ⟨m, hm, hcond | hcond, rfl⟩
    · exact Or.inl (List.mem_map_of_mem _ (List.mem_filter.mpr ⟨hm, by simpa using hcond⟩))
    · exact Or.inr (List.mem_map_of_mem _ (List.mem_filter.mpr ⟨hm, by simpa using hcond⟩))

/-- Membership characterization of the list result. -/
theorem mem_listViews_iff (p : Role) (s : State) (v : MsgView) :
    v ∈ (listMessagesFor p s).2 ↔ ∃ m ∈ s.messages,
      (m.sender = p ∨ m.recipient = p) ∧ v = viewOf s.readReceipts m := by
  simp only [listMessagesFor]
  rw [mem_sortByTimestamp]
  constructor
  · intro hv
    obtain ⟨m, hm, rfl⟩ := List.mem_map.mp hv
    have hmf := List.mem_filter.mp hm
    exact ⟨m, hmf.1, by simpa using hmf.2, rfl⟩
  · rintro ⟨m, hm, hcond, rfl⟩
    exact List.mem_map_of_mem _ (List.mem_filter.mpr ⟨hm, by simpa using hcond⟩)

theorem foldl_max_init_le (l : List MsgView) (a : Nat) :
    a ≤ l.foldl (fun x v => max x v.timestamp) a := by
  induction l generalizing a with
  | nil => exact le_refl a
  | cons v rest ih => exact le_trans (Nat.le_max_left _ _) (ih _)

theorem mem_le_latestTs (l : List MsgView) (v : MsgView) (hv : v ∈ l) :
    v.timestamp ≤ latestTs l := by
  unfold latestTs
  generalize 0 = a
  induction l generalizing a with
  | nil => exact absurd hv (List.not_mem_nil v)
  | cons w rest ih =>
    rcases List.mem_cons.mp hv with rfl | hv'
    · exact le_trans (Nat.le_max_right a v.timestamp) (foldl_max_init_le rest _)
    · exact ih hv' _

/-- **C4**: poll is idempotent with respect to the store — a second poll with
the same cursor returns the same list — and a poll whose cursor is the
latest timestamp returned by a previous (non-empty) poll returns nothing
until a new message is sent. -/
theorem C4_poll_idempotent (p : Role) (t now1 now2 now3 : Nat) (s : State)
    (h : (poll p t now1 s).2 ≠ []) :
    PollClaim p t now1 now2 now3 s := by
  have hr1 : (poll p t now1 s).2 = pollViews p t s := poll_snd p t now1 s
  refine ⟨?_, ?_⟩
  · rw [poll_snd, poll_snd]
    exact pollViews_eq_of p t _ s (poll_fst_messages p t now1 s) (poll_fst_receipts p t now1 s)
  · set L := latestTs (poll p t now1 s).2 with hL
    obtain ⟨v0, hv0⟩ := List.exists_mem_of_ne_nil _ h
    have hv0p : v0 ∈ pollViews p t s := hr1 ▸ hv0
    obtain ⟨m0, hm0, hcond0, rfl⟩ := (mem_pollViews_iff p t s v0).mp hv0p
    have htL : t < L := by
      have h1 : t < (viewOf s.readReceipts m0).timestamp := by
        rcases hcond0 with ⟨_, hh⟩ | ⟨_, hh⟩ <;> exact hh
      exact lt_of_lt_of_le h1 (hL ▸ mem_le_latestTs _ _ hv0)
    have hbound : ∀ m ∈ s.messages,
        (m.recipient = p ∨ m.sender = p) → t < m.timestamp → m.timestamp ≤ L := by
      intro m hm hvis ht
      have hmemp : viewOf s.readReceipts m ∈ pollViews p t s := by
        rw [mem_pollViews_iff]
        refine ⟨m, hm, ?_, rfl⟩
        rcases hvis with hh | hh
        · exact Or.inl ⟨hh, ht⟩
        · exact Or.inr ⟨hh, ht⟩
      have hmem : viewOf s.readReceipts m ∈ (poll p t now1 s).2 := by
        rw [hr1]; exact hmemp
      exact mem_le_latestTs _ _ hmem
    rw [poll_snd]
    unfold pollViews
    rw [sortByTimestamp_eq_nil, List.append_eq_nil]
    rw [poll_fst_messages, poll_fst_receipts]
    constructor
    · rw [List.map_eq_nil_iff, List.filter_eq_nil_iff]
      intro m hm
      obtain ⟨m0', hm0', rfl⟩ := List.mem_map.mp hm
      simp only [pollUpd_recipient, pollUpd_timestamp, decide_eq_true_eq, not_and]
      intro hrec hLts
      have := hbound m0' hm0' (Or.inl hrec) (lt_trans htL hLts)
      omega
    · rw [List.map_eq_nil_iff, List.filter_eq_nil_iff]
      intro m hm
      obtain ⟨m0', hm0', rfl⟩ := List.mem_map.mp hm
      simp only [pollUpd_sender, pollUpd_timestamp, decide_eq_true_eq, not_and]
      intro hsend hLts
      have := hbound m0' hm0' (Or.inr hsend) (lt_trans htL hLts)
      omega

theorem C4_poll_idempotent_witness :
    (poll Role.B 0 6 demoState).2 ≠ [] ∧ PollClaim Role.B 0 6 7 8 demoState :=
  ⟨by decide, C4_poll_idempotent Role.B 0 6 7 8 demoState (by decide)⟩

/-- **C5 counterexample**: after `A` sends one message, a poll by `B` with
cursor 0 and the list taken right after it return the *same* list — the list
is not a *strict* superset of the poll result. -/
theorem C5_counterexample :
    (listMessagesFor Role.B (poll Role.B 0 6 demoState).1).2 =
      (poll Role.B 0 6 demoState).2 := by decide

/-- **C5 (amended)**: for every participant and store, the List result taken
right after a cursor-0 Poll is a superset (by content, not necessarily
strict) of the Poll result, and for ids appearing in both the two agree on
the `read` state. -/
theorem C5_list_superset (p : Role) (now : Nat) (s : State) : ListPollClaim p now s := by
  constructor
  · intro v hv
    rw [poll_snd] at hv
    obtain ⟨m, hm, hcond, rfl⟩ := (mem_pollViews_iff p 0 s v).mp hv
    rw [mem_listViews_iff]
    refine ⟨pollUpd p 0 m, ?_, ?_, ?_⟩
    · rw [poll_fst_messages]
      exact List.mem_map_of_mem _ hm
    · rw [pollUpd_sender, pollUpd_recipient]
      rcases hcond with ⟨hh, _⟩ | ⟨hh, _⟩
      · exact Or.inr hh
      · exact Or.inl hh
    · rw [poll_fst_receipts, viewOf_pollUpd]
  · intro v hv w hw hid
    rw [poll_snd] at hv
    obtain ⟨m, hm, _, rfl⟩ := (mem_pollViews_iff p 0 s v).mp hv
    rw [mem_listViews_iff] at hw
    obtain ⟨m', hm', _, rfl⟩ := hw
    have hid' : m.id = m'.id := hid
    show (rcptGet s.readReceipts m.id).getD false =
      (rcptGet (poll p 0 now s).1.readReceipts m'.id).getD false
    rw [poll_fst_receipts, hid']

theorem C5_list_superset_witness : ListPollClaim Role.B 6 demoState :=
  C5_list_superset Role.B 6 demoState

theorem poll_fst_typingA (p : Role) (t now : Nat) (s : State) :
    (poll p t now s).1.typingA =
      (if s.typingA.isTyping && decide (3000 < now - s.typingA.timestamp)
        then { s.typingA with isTyping := false } else s.typingA) := rfl

theorem poll_fst_typingB (p : Role) (t now : Nat) (s : State) :
    (poll p t now s).1.typingB =
      (if s.typingB.isTyping && decide (3000 < now - s.typingB.timestamp)
        then { s.typingB with isTyping := false } else s.typingB) := rfl

/-- **C10 counterexample**: the claim allows Poll to mutate nothing but the
`delivered` fields of returned recipient messages.  But Poll also runs
`cleanupTypingStatus`: polling an empty store at time 5000 flips `A`'s stale
typing flag, so the Typing State differs before and after the call. -/
theorem C10_counterexample :
    (poll Role.B 0 5000 typingDemoState).1.typingA ≠ typingDemoState.typingA := by decide

/-- **C10 (amended)**: among the read paths, List and Get Read Status are
fully read-only, and Poll mutates only the `delivered` fields of messages
plus stale typing flags (via `cleanupTypingStatus`). -/
theorem C10_read_paths (p : Role) (k : MsgId) (t now : Nat) (s : State) :
    ReadOnlyClaim p k t now s := by
  refine ⟨rfl, rfl, rfl, rfl, ?_, ?_⟩
  · rw [poll_fst_messages, List.map_map]
    refine List.map_congr_left (fun m _ => ?_)
    simp only [Function.comp_apply]
    by_cases h : m.recipient = p ∧ t < m.timestamp <;> simp [pollUpd, h]
  · intro r
    cases r with
    | A =>
      rw [show typingOf (poll p t now s).1 Role.A = (poll p t now s).1.typingA from rfl,
        poll_fst_typingA]
      by_cases h : s.typingA.isTyping && decide (3000 < now - s.typingA.timestamp)
      · exact Or.inr (by rw [if_pos h]; rfl)
      · exact Or.inl (by rw [if_neg h]; rfl)
    | B =>
      rw [show typingOf (poll p t now s).1 Role.B = (poll p t now s).1.typingB from rfl,
        poll_fst_typingB]
      by_cases h : s.typingB.isTyping && decide (3000 < now - s.typingB.timestamp)
      · exact Or.inr (by rw [if_pos h]; rfl)
      · exact Or.inl (by rw [if_neg h]; rfl)

/-- **C7**: purge by `p` removes exactly the messages where `p` is sender or
recipient, removes the receipt entries of exactly the removed messages, a
List for `p` afterwards is empty, and Get Read Status on any id of `p`'s
conversation returns false.  Hypotheses: message ids are duplicate-free and
every receipt key belongs to a stored message (true in every reachable
store). -/
theorem C7_purge (p : Role) (s : State)
    (hnd : (s.messages.map (·.id)).Nodup)
    (hsub : ∀ e ∈ s.readReceipts, e.1 ∈ s.messages.map (·.id)) :
    PurgeClaim p s := by
  have hkeep : ∀ k, rcptGet (purge p s).readReceipts k =
      if k ∈ (s.messages.filter (fun m =>
        decide (m.sender ≠ p ∧ m.recipient ≠ p))).map (·.id)
      then rcptGet s.readReceipts k else none := by
    intro k
    rw [purge_receipts, rcptGet_filter_keys]
  have hremoved_notin : ∀ k m, m ∈ s.messages → m.id = k →
      (m.sender = p ∨ m.recipient = p) →
      k ∉ (s.messages.filter (fun m =>
        decide (m.sender ≠ p ∧ m.recipient ≠ p))).map (·.id) := by
    intro k m hm hk hvis hcon
    obtain ⟨m1, hm1, hk1⟩ := List.mem_map.mp hcon
    have hm1f := List.mem_filter.mp hm1
    have heq : m1 = m :=
      List.inj_on_of_nodup_map hnd hm1f.1 hm (by rw [hk1, hk])
    subst heq
    have h2 := hm1f.2
    simp only [decide_eq_true_eq] at h2
    rcases hvis with hv | hv
    · exact h2.1 hv
    · exact h2.2 hv
  refine ⟨?_, ?_, ?_, ?_, ?_⟩
  · intro m hm hvis hcon
    rw [purge_messages] at hcon
    have h2 := (List.mem_filter.mp hcon).2
    simp only [decide_eq_true_eq] at h2
    rcases hvis with hv | hv
    · exact h2.1 hv
    · exact h2.2 hv
  · intro m hm h1 h2
    rw [purge_messages]
    exact List.mem_filter.mpr ⟨hm, by simp [h1, h2]⟩
  · intro k
    rw [hkeep k]
    by_cases hk : k ∈ (s.messages.filter (fun m =>
        decide (m.sender ≠ p ∧ m.recipient ≠ p))).map (·.id)
    · rw [if_pos hk]
      constructor
      · exact fun hnone => Or.inl hnone
      · rintro (hnone | ⟨m, hm, hmk, hvis⟩)
        · exact hnone
        · exact absurd hk (hremoved_notin k m hm hmk hvis)
    · rw [if_neg hk]
      constructor
      · intro _
        cases hg : rcptGet s.readReceipts k with
        | none => exact Or.inl rfl
        | some b =>
          right
          unfold rcptGet at hg
          obtain ⟨e, he, _⟩ := Option.map_eq_some'.mp hg
          have hmem := List.mem_of_find?_eq_some he
          have hpred := List.find?_some he
          simp only [decide_eq_true_eq] at hpred
          have hkin := hsub e hmem
          rw [hpred] at hkin
          obtain ⟨m, hm, hmk⟩ := List.mem_map.mp hkin
          refine ⟨m, hm, hmk, ?_⟩
          by_contra hnv
          push_neg at hnv
          exact hk (hmk ▸ List.mem_map_of_mem (·.id)
            (List.mem_filter.mpr ⟨hm, by simp [hnv.1, hnv.2]⟩))
      · exact fun _ => rfl
  · simp only [listMessagesFor]
    rw [sortByTimestamp_eq_nil, List.map_eq_nil_iff, List.filter_eq_nil_iff]
    intro m hm
    rw [purge_messages] at hm
    have h2 := (List.mem_filter.mp hm).2
    simp only [decide_eq_true_eq] at h2
    simp [h2.1, h2.2]
  · intro k m hm hk hvis
    show (rcptGet (purge p s).readReceipts k).getD false = false
    rw [hkeep k, if_neg (hremoved_notin k m hm hk hvis)]
    rfl

theorem C7_purge_witness :
    ((demoState.messages.map (·.id)).Nodup
      ∧ (∀ e ∈ demoState.readReceipts, e.1 ∈ demoState.messages.map (·.id)))
    ∧ PurgeClaim Role.A demoState :=
  ⟨⟨by decide, by decide⟩, C7_purge Role.A demoState (by decide) (by decide)⟩

/-- The read-receipt loop never touches the id counter. -/
theorem markRead_counter (r : Role) (ids : List MsgId) (s : State) (c : Nat) :
    (ids.foldl (markReadStep r) (s, c)).1.messageIdCounter = s.messageIdCounter := by
  induction ids generalizing s c with
  | nil => rfl
  | cons i rest ih =>
    rw [List.foldl_cons]
    cases he : eligibleb s r i with
    | false => rw [markReadStep_not_elig r s c i he]; exact ih s c
    | true => rw [markReadStep_elig r s c i he]; exact ih _ _

/-- No request ever decreases the id counter. -/
theorem applyOp_counter_mono (s : State) (op : Op) :
    s.messageIdCounter ≤ (applyOp s op).messageIdCounter := by
  cases op with
  | opSend r t l now =>
    cases t with
    | none => exact le_refl _
    | some t' =>
      show s.messageIdCounter ≤ (send r (some t') l now s).1.messageIdCounter
      rw [send_some]
      by_cases h0 : (strTrim t').length = 0
      · rw [if_pos h0]
      · rw [if_neg h0]
        by_cases h5 : 5000 < t'.length
        · rw [if_pos h5]
        · rw [if_neg h5]; exact Nat.le_succ _
  | opPoll r since now => exact le_of_eq (poll_fst_counter r since now s).symm
  | opList r => exact le_refl _
  | opSetTyping r b now => cases r <;> exact le_refl _
  | opGetTyping r now => exact le_refl _
  | opMarkRead r ids => exact le_of_eq (markRead_counter r ids s 0).symm
  | opGetReadStatus i => exact le_refl _
  | opPurge r => exact le_refl _

/-- A successful send assigns the current counter as the id's sequence number
and then increments the counter. -/
theorem send_ok_counter (r : Role) (t : List Char) (l : Option (List Char)) (now : Nat)
    (s : State) (resp : SendResponse) (h : (send r (some t) l now s).2 = SendResult.ok resp) :
    resp.id = ⟨now, s.messageIdCounter⟩
    ∧ (send r (some t) l now s).1.messageIdCounter = s.messageIdCounter + 1 := by
  rw [send_some] at h ⊢
  by_cases h0 : (strTrim t).length = 0
  · rw [if_pos h0] at h
    exact absurd h (by simp)
  · rw [if_neg h0] at h ⊢
    by_cases h5 : 5000 < t.length
    · rw [if_pos h5] at h
      exact absurd h (by simp)
    · rw [if_neg h5] at h ⊢
      injection h with h'
      subst h'
      exact ⟨rfl, rfl⟩

theorem sendIdOf_spec (s : State) (op : Op) (i : MsgId) (hi : i ∈ sendIdOf s op) :
    i.seq = s.messageIdCounter ∧
      s.messageIdCounter < (applyOp s op).messageIdCounter := by
  cases op with
  | opSend r t l now =>
    cases t with
    | none =>
      simp only [sendIdOf] at hi
      rw [send_none] at hi
      exact absurd hi (List.not_mem_nil i)
    | some t' =>
      simp only [sendIdOf] at hi
      cases hok : (send r (some t') l now s).2 with
      | error e =>
        rw [hok] at hi
        exact absurd hi (List.not_mem_nil i)
      | ok resp =>
        rw [hok] at hi
        have hc := send_ok_counter r t' l now s resp hok
        have hieq : i = resp.id := by simpa using hi
        subst hieq
        rw [hc.1]
        refine ⟨rfl, ?_⟩
        show s.messageIdCounter < (send r (some t') l now s).1.messageIdCounter
        rw [hc.2]
        omega
  | opPoll r since now => exact absurd hi (List.not_mem_nil i)
  | opList r => exact absurd hi (List.not_mem_nil i)
  | opSetTyping r b now => exact absurd hi (List.not_mem_nil i)
  | opGetTyping r now => exact absurd hi (List.not_mem_nil i)
  | opMarkRead r ids => exact absurd hi (List.not_mem_nil i)
  | opGetReadStatus j => exact absurd hi (List.not_mem_nil i)
  | opPurge r => exact absurd hi (List.not_mem_nil i)

/-- Every id assigned along a trace has a sequence number at least the
starting counter. -/
theorem sentIds_lb (ops : List Op) (s : State) (i : MsgId) (hi : i ∈ sentIds s ops) :
    s.messageIdCounter ≤ i.seq := by
  induction ops generalizing s with
  | nil => exact absurd hi (List.not_mem_nil i)
  | cons op rest ih =>
    rw [sentIds] at hi
    rcases List.mem_append.mp hi with h | h
    · exact le_of_eq (sendIdOf_spec s op i h).1.symm
    · exact le_trans (applyOp_counter_mono s op) (ih _ h)

theorem sendIdOf_pairwise (s : State) (op : Op) :
    List.Pairwise (fun a b : MsgId => a.seq < b.seq) (sendIdOf s op) := by
  cases op with
  | opSend r t l now =>
    simp only [sendIdOf]
    cases (send r t l now s).2 <;> simp
  | opPoll r since now => exact List.Pairwise.nil
  | opList r => exact List.Pairwise.nil
  | opSetTyping r b now => exact List.Pairwise.nil
  | opGetTyping r now => exact List.Pairwise.nil
  | opMarkRead r ids => exact List.Pairwise.nil
  | opGetReadStatus j => exact List.Pairwise.nil
  | opPurge r => exact List.Pairwise.nil

/-- The sequence numbers of the assigned ids are strictly increasing along
every trace. -/
theorem sentIds_seq_sorted (ops : List Op) (s : State) :
    List.Pairwise (fun a b : MsgId => a.seq < b.seq) (sentIds s ops) := by
  induction ops generalizing s with
  | nil => exact List.Pairwise.nil
  | cons op rest ih =>
    rw [sentIds]
    apply List.pairwise_append.mpr
    refine ⟨sendIdOf_pairwise s op, ih _, ?_⟩
    intro a ha b hb
    have h1 := (sendIdOf_spec s op a ha).1
    have h2 := (sendIdOf_spec s op a ha).2
    have h3 := sentIds_lb rest (applyOp s op) b hb
    omega

/-- **C8**: along every trace of requests from the fresh server — sends,
polls, lists, typing updates and reads, read receipts, read-status checks
and purges, in any order — the ids assigned by `generateMessageId` are
pairwise distinct (their counter components are strictly increasing), so no
id is ever reused, not even after a purge. -/
theorem C8_ids_never_reused (ops : List Op) :
    List.Pairwise (fun a b : MsgId => a ≠ b) (sentIds initState ops)
    ∧ List.Pairwise (fun a b : MsgId => a.seq < b.seq) (sentIds initState ops) := by
  have h := sentIds_seq_sorted ops initState
  refine ⟨h.imp ?_, h⟩
  intro a b hlt he
  rw [he] at hlt
  exact lt_irrefl _ hlt
